import Mathlib

/-!
Verification of the asynchronous short-code supply pipeline of the
`shorturl-net` repository (package `internal/shortcode`).

The Go source is shallowly embedded as follows.

* The external world seen by one execution of the pipeline is an oracle
  `Env`: a stream of outcomes of successive `crypto/rand.Int` draws
  (`entropy`), a stream of outcomes of successive `short_links` count
  queries (`store`), and the observed status of the stop channel at each
  loop iteration (`stop`).  A `Cursor` records how many entropy draws and
  how many store queries have been consumed so far.
* `generateRandomString`, `generateUniqueCode` and the `for` loop of
  `fillChannel` are translated as fuel-indexed structural recursions; the
  channel of codes is a `List String` and each run additionally records a
  trace of observable `Event`s (probes of the durable store, pushes into
  the channel, randomness failures).
* The mutex-protected `isFilling` flag of `fillChannel` is translated as a
  transition system `FillStep` on `FillFlagState`.
* `Stop` / `GetCode` and the Go channel semantics they rely on are
  translated on a `Generator` record of two `GoChan`s.
* The persisted `short_links` table (model `ShortLink`, which has no
  `gorm.DeletedAt` column) is a `List ShortLink`, with the success path of
  `isCodeExist` and the handler `DeleteLink` acting on it.
-/

namespace ShortUrl

/-- `Charset` from `internal/shortcode`: the 62 characters codes are drawn
from. -/
def Charset : String := "abcdefghijklmnopqrstuvwxyzABCDEFGHIJKLMNOPQRSTUVWXYZ0123456789"

/-- `CodeLength` from `internal/shortcode`: length of a generated code. -/
def CodeLength : Nat := 7

/-- `ChannelBufferSize` from `internal/shortcode`: capacity of `codeChan`. -/
def ChannelBufferSize : Nat := 1000

/-- `MinFillThreshold` from `internal/shortcode`: low-water mark checked by
`monitorAndRefill`. -/
def MinFillThreshold : Nat := 100

/-- Outcome of one `db.Unscoped().Table("short_links").Where(...).Count`
query: either the query errors (`err = true`) or it reports the number of
rows (in any state, active or not, since the query is unscoped and the
table has no soft-delete column) whose `short_code` equals the candidate. -/
structure QueryOutcome where
  err : Bool
  count : Nat
deriving DecidableEq, Repr

/-- `Generator.isCodeExist` (config.go ll. 225-234), given the outcome of
its count query: on a query error it conservatively reports `true`,
otherwise it reports `count > 0`. -/
def isCodeExist (r : QueryOutcome) : Bool :=
  if r.err then true else decide (r.count > 0)

/-- Oracle for one execution: the `i`-th `rand.Int(rand.Reader, 62)` draw
(`none` = entropy source failure, `some v` = the drawn index `v < 62`),
the `q`-th store-count query outcome, and whether `stopChan` is observed
closed at loop iteration `k`. -/
structure Env where
  entropy : Nat → Option (Fin 62)
  store : Nat → QueryOutcome
  stop : Nat → Bool

/-- How much of the oracle has been consumed: number of entropy draws and
number of store queries performed so far. -/
structure Cursor where
  eIdx : Nat
  qIdx : Nat
deriving DecidableEq, Repr

/-- `Charset[v]` for a drawn index `v < 62` (`rand.Int` guarantees the
bound; the characters are ASCII so byte indexing is character indexing). -/
def charAt (v : Fin 62) : Char :=
  Charset.data.get (Fin.cast (by decide) v)

/-- `Generator.generateRandomString` (config.go ll. 212-222): draw `n`
indices from the entropy source, returning `none` (the Go `("", err)`
return) as soon as one draw fails, and otherwise the string of the indexed
charset characters in draw order. -/
def generateRandomString (env : Env) : Nat → Cursor → Option String × Cursor
  | 0, c => (some "", c)
  | n + 1, c =>
    match env.entropy c.eIdx with
    | none => (none, ⟨c.eIdx + 1, c.qIdx⟩)
    | some v =>
      match generateRandomString env n ⟨c.eIdx + 1, c.qIdx⟩ with
      | (none, c') => (none, c')
      | (some s, c') => (some (String.mk (charAt v :: s.data)), c')

/-- Observable actions of a refill pass: a randomness failure, a probe of
the durable store for a candidate (with the query outcome), or a send of a
verified code into `codeChan`. -/
inductive Event where
  | genErr : Event
  | probe (code : String) (resp : QueryOutcome) : Event
  | push (code : String) : Event
deriving DecidableEq, Repr

/-- Result of `Generator.generateUniqueCode`: the returned string, whether
the Go error return was non-nil, the advanced cursor, and the trace of
events performed. -/
structure GenAttempt where
  code : String
  isErr : Bool
  cursor : Cursor
  trace : List Event
deriving Repr

/-- `Generator.generateUniqueCode` (config.go ll. 197-209), with the
remaining attempt budget explicit (the source runs `for i := 0; i < 10`):
generate a candidate (propagating a randomness error as `("", err)`),
probe the store, return the candidate on a non-existence report, retry on
an existence report, and yield `("", nil)` when the budget is exhausted. -/
def generateUniqueCode (env : Env) : Nat → Cursor → GenAttempt
  | 0, c => ⟨"", false, c, []⟩
  | n + 1, c =>
    match generateRandomString env CodeLength c with
    | (none, c') => ⟨"", true, c', [Event.genErr]⟩
    | (some code, c') =>
      let r := env.store c'.qIdx
      let c'' : Cursor := ⟨c'.eIdx, c'.qIdx + 1⟩
      if isCodeExist r then
        let rest := generateUniqueCode env n c''
        ⟨rest.code, rest.isErr, rest.cursor, Event.probe code r :: rest.trace⟩
      else
        ⟨code, false, c'', [Event.probe code r]⟩

/-- Why the `for` loop of `fillChannel` returned. -/
inductive ExitReason where
  | full : ExitReason
  | stopped : ExitReason
  | fuelOut : ExitReason
deriving DecidableEq, Repr

/-- Result of running the `for` loop of `fillChannel`: exit reason, the
iteration index reached, the final cursor, the channel contents, and the
event trace. -/
structure FillResult where
  reason : ExitReason
  iter : Nat
  cursor : Cursor
  chan : List String
  trace : List Event
deriving Repr

/-- The `for` loop of `Generator.fillChannel` (config.go ll. 176-192),
fuel-indexed: while the channel is below capacity, observe the stop
channel (the `select` with a `default` branch takes the stop case exactly
when `stopChan` is closed) and exit if stopped; otherwise run
`generateUniqueCode`; on a randomness error sleep and continue, on a
non-empty code send it into the channel, on an empty code just continue.
The mutex-protected `isFilling` entry/exit protocol around this loop is
modelled by `FillStep` below. -/
def fillChannelLoop (env : Env) : Nat → Nat → Cursor → List String → FillResult
  | 0, it, c, chan => ⟨ExitReason.fuelOut, it, c, chan, []⟩
  | fuel + 1, it, c, chan =>
    if chan.length < ChannelBufferSize then
      if env.stop it then ⟨ExitReason.stopped, it, c, chan, []⟩
      else
        let g := generateUniqueCode env 10 c
        if g.isErr then
          let rest := fillChannelLoop env fuel (it + 1) g.cursor chan
          ⟨rest.reason, rest.iter, rest.cursor, rest.chan, g.trace ++ rest.trace⟩
        else if g.code = "" then
          let rest := fillChannelLoop env fuel (it + 1) g.cursor chan
          ⟨rest.reason, rest.iter, rest.cursor, rest.chan, g.trace ++ rest.trace⟩
        else
          let rest := fillChannelLoop env fuel (it + 1) g.cursor (chan ++ [g.code])
          ⟨rest.reason, rest.iter, rest.cursor, rest.chan,
            g.trace ++ [Event.push g.code] ++ rest.trace⟩
    else ⟨ExitReason.full, it, c, chan, []⟩

/-- What `monitorAndRefill`'s `select` delivers at one wakeup: a ticker
tick or the stop signal. -/
inductive MEvent where
  | tick : MEvent
  | stopSig : MEvent
deriving DecidableEq, Repr

/-- Result of running the monitor on a schedule of wakeups: final cursor,
channel, trace of refill events, and whether the stop case was taken. -/
structure MonResult where
  cursor : Cursor
  chan : List String
  trace : List Event
  sawStop : Bool
deriving Repr

/-- `Generator.monitorAndRefill` (config.go ll. 142-157) on an explicit
schedule of `select` outcomes: on a tick, trigger a refill pass whenever
the channel is below `MinFillThreshold` (each pass gets `fillFuel` loop
fuel); on the stop signal, return at once, processing nothing further.
An empty schedule means the monitor is still waiting in its `select`. -/
def monitorAndRefill (env : Env) (fillFuel : Nat) :
    List MEvent → Nat → Cursor → List String → MonResult
  | [], _, c, chan => ⟨c, chan, [], false⟩
  | MEvent.stopSig :: _, _, c, chan => ⟨c, chan, [], true⟩
  | MEvent.tick :: es, it, c, chan =>
    if chan.length < MinFillThreshold then
      let r := fillChannelLoop env fillFuel it c chan
      let m := monitorAndRefill env fillFuel es r.iter r.cursor r.chan
      ⟨m.cursor, m.chan, r.trace ++ m.trace, m.sawStop⟩
    else
      monitorAndRefill env fillFuel es it c chan

/-- State of the mutex-protected single-flight flag of `fillChannel`
(config.go ll. 161-173): the `isFilling` boolean, plus an instrumented
count of refill passes currently inside the filling critical section. -/
structure FillFlagState where
  isFilling : Bool
  inside : Nat
deriving DecidableEq, Repr

/-- Atomic transitions of the `isFilling` protocol.  `enterBusy`: a refill
trigger finds the flag held and returns immediately (config.go ll. 162-165);
`enter`: a trigger finds the flag clear, sets it and enters the critical
section (ll. 166-167); `exitPass`: a pass inside the critical section
leaves on any exit path and its `defer` clears the flag (ll. 169-173). -/
inductive FillStep : FillFlagState → FillFlagState → Prop where
  | enterBusy (s : FillFlagState) : s.isFilling = true → FillStep s s
  | enter (s : FillFlagState) : s.isFilling = false →
      FillStep s ⟨true, s.inside + 1⟩
  | exitPass (s : FillFlagState) : 0 < s.inside →
      FillStep s ⟨false, s.inside - 1⟩

/-- States of the flag protocol reachable from the initial state of a
fresh `Generator` (flag clear, nobody filling). -/
inductive ReachableFill : FillFlagState → Prop where
  | init : ReachableFill ⟨false, 0⟩
  | step {s s' : FillFlagState} :
      ReachableFill s → FillStep s s' → ReachableFill s'

/-- A Go channel: its buffered values and whether it has been closed. -/
structure GoChan (α : Type) where
  buf : List α
  closed : Bool
deriving DecidableEq, Repr

/-- The two channels owned by a `Generator` (config.go ll. 104-111);
`db`, `mu`, `isFilling` and the logger are modelled separately. -/
structure Generator where
  codeChan : GoChan String
  stopChan : GoChan Unit
deriving DecidableEq, Repr

/-- `NewGenerator` (config.go ll. 114-121): both channels freshly made,
empty and open. -/
def NewGenerator : Generator :=
  ⟨⟨[], false⟩, ⟨[], false⟩⟩

/-- Go `close(ch)`: closing an already-closed channel panics at runtime
(modelled as `Except.error ()`); otherwise the channel is marked closed. -/
def closeChan {α : Type} (ch : GoChan α) : Except Unit (GoChan α) :=
  if ch.closed then Except.error () else Except.ok { ch with closed := true }

/-- `Generator.Stop` (config.go ll. 131-134): `close(g.stopChan)` and
nothing else — `codeChan` is not touched. -/
def Stop (g : Generator) : Except Unit Generator :=
  (closeChan g.stopChan).map (fun ch => { g with stopChan := ch })

/-- `Generator.GetCode` (config.go ll. 137-139), i.e. `<-g.codeChan`:
pops the oldest buffered code; on an empty open channel the caller blocks
(`none`); on an empty closed channel Go delivers the zero value `""`
immediately. -/
def GetCode (g : Generator) : Option (String × Generator) :=
  match g.codeChan.buf with
  | code :: rest => some (code, { g with codeChan := ⟨rest, g.codeChan.closed⟩ })
  | [] =>
    if g.codeChan.closed then some ("", g)
    else none

/-- `g.codeChan <- code` (config.go l. 189): append to the buffer (the
loop condition guarantees the buffer is below capacity at the send). -/
def pushCode (g : Generator) (code : String) : Generator :=
  { g with codeChan := ⟨g.codeChan.buf ++ [code], g.codeChan.closed⟩ }

/-- A row of the `short_links` table (internal/model/shortlink.go
ll. 8-16).  The struct has no `gorm.DeletedAt` column, so GORM deletes on
this model are hard deletes. -/
structure ShortLink where
  id : Nat
  shortCode : String
  originalURL : String
  clickCount : Int
  isActive : Bool
deriving DecidableEq, Repr

/-- The count computed by `isCodeExist`'s unscoped query on a concrete
table state: every row whose `short_code` equals the candidate is counted,
whatever its `is_active` flag. -/
def shortLinksCount (table : List ShortLink) (code : String) : Nat :=
  (table.filter (fun r => r.shortCode == code)).length

/-- The success path of `Generator.isCodeExist` (config.go ll. 225-234)
against a concrete table state: `count > 0`. -/
def isCodeExistDB (table : List ShortLink) (code : String) : Bool :=
  decide (shortLinksCount table code > 0)

/-- `ShortLinkHandler.DeleteLink`'s database effect (the
`db.Where("short_code = ?", code).Delete(&model.ShortLink{})` call):
since `ShortLink` has no `gorm.DeletedAt` column this is a hard `DELETE`
and the matching rows are removed from the table. -/
def deleteLink (table : List ShortLink) (code : String) : List ShortLink :=
  table.filter (fun r => !(r.shortCode == code))

/-- `ShortLinkHandler.ToggleLink`'s database effect: flip `is_active` on
the matching rows; the rows stay in the table. -/
def toggleLink (table : List ShortLink) (code : String) : List ShortLink :=
  table.map (fun r =>
    if r.shortCode == code then { r with isActive := !r.isActive } else r)

/-- Whether an event is a send into `codeChan`. -/
def isPush : Event → Bool
  | Event.push _ => true
  | _ => false

/-- Whether an event is a store probe. -/
def isProbe : Event → Bool
  | Event.probe _ _ => true
  | _ => false

/-- Number of store probes in a trace. -/
def countProbes (tr : List Event) : Nat :=
  (tr.filter isProbe).length

/-- Does the (possible) event preceding a send certify the sent code,
i.e. is it a probe of that very code whose outcome reported
non-existence? -/
def verifiedBefore : Option Event → String → Bool
  | some (Event.probe c r), code => c == code && !isCodeExist r
  | _, _ => false

/-- `sendsVerifiedAux prev tr`: walking `tr` with `prev` the event just
before it, every send is immediately preceded by a non-existence probe of
the sent code. -/
def sendsVerifiedAux : Option Event → List Event → Bool
  | _, [] => true
  | prev, e :: rest =>
    (match e with
     | Event.push code => verifiedBefore prev code
     | _ => true) && sendsVerifiedAux (some e) rest

/-- The last event of `tr`, defaulting to `prev` when `tr` is empty. -/
def lastEvent (prev : Option Event) : List Event → Option Event
  | [] => prev
  | e :: rest => lastEvent (some e) rest

/-- A concrete oracle in which the entropy source always yields index 0
(`'a'`), every store query succeeds reporting zero matching rows, and the
stop channel is never closed. -/
def envAllFresh : Env :=
  ⟨fun _ => some ⟨0, by decide⟩, fun _ => ⟨false, 0⟩, fun _ => false⟩

/-- A concrete oracle in which the entropy source always yields index 0
and every store query succeeds reporting one matching row (every candidate
collides), with the stop channel never closed. -/
def envAllTaken : Env :=
  ⟨fun _ => some ⟨0, by decide⟩, fun _ => ⟨false, 1⟩, fun _ => false⟩

/-- A concrete oracle identical to `envAllFresh` except that the stop
channel is observed closed from the start. -/
def envStopped : Env :=
  ⟨fun _ => some ⟨0, by decide⟩, fun _ => ⟨false, 0⟩, fun _ => true⟩

/-! ### Helper lemmas about `generateUniqueCode` traces -/

theorem guc_noPush (env : Env) :
    ∀ (n : Nat) (c : Cursor) (e : Event),
      e ∈ (generateUniqueCode env n c).trace → isPush e = false := by
  intro n
  induction n with
  | zero => intro c e he; simp [generateUniqueCode] at he
  | succ n ih =>
    intro c e he
    rcases hg : generateRandomString env CodeLength c with ⟨os, c'⟩
    cases os with
    | none =>
      simp [generateUniqueCode, hg] at he
      subst he; rfl
    | some code =>
      by_cases hex : isCodeExist (env.store c'.qIdx) = true
      · simp [generateUniqueCode, hg, hex] at he
        rcases he with he | he
        · subst he; rfl
        · exact ih _ e he
      · simp [generateUniqueCode, hg, hex] at he
        subst he; rfl

theorem guc_trace_ne_nil (env : Env) (n : Nat) (c : Cursor) :
    (generateUniqueCode env (n + 1) c).trace ≠ [] := by
  rcases hg : generateRandomString env CodeLength c with ⟨os, c'⟩
  cases os with
  | none => simp [generateUniqueCode, hg]
  | some code =>
    by_cases hex : isCodeExist (env.store c'.qIdx) = true
    · simp [generateUniqueCode, hg, hex]
    · simp [generateUniqueCode, hg, hex]

theorem guc_found_shape (env : Env) :
    ∀ (n : Nat) (c : Cursor),
      (generateUniqueCode env n c).isErr = false →
      (generateUniqueCode env n c).code ≠ "" →
      ∃ tr₀ r, (generateUniqueCode env n c).trace
          = tr₀ ++ [Event.probe (generateUniqueCode env n c).code r]
        ∧ isCodeExist r = false
        ∧ ∀ c' r', Event.probe c' r' ∈ tr₀ → isCodeExist r' = true := by
  intro n
  induction n with
  | zero => intro c _ hcode; simp [generateUniqueCode] at hcode
  | succ n ih =>
    intro c herr hcode
    rcases hg : generateRandomString env CodeLength c with ⟨os, c'⟩
    cases os with
    | none => simp [generateUniqueCode, hg] at herr
    | some code =>
      by_cases hex : isCodeExist (env.store c'.qIdx) = true
      · simp only [generateUniqueCode, hg] at herr hcode ⊢
        simp only [hex, if_true] at herr hcode ⊢
        rcases ih _ herr hcode with ⟨tr₀, r, htr, hr, hall⟩
        refine ⟨Event.probe code (env.store c'.qIdx) :: tr₀, r, ?_, hr, ?_⟩
        · simp [htr]
        · intro c'' r'' hmem
          rcases List.mem_cons.mp hmem with h | h
          · cases h; exact hex
          · exact hall _ _ h
      · simp only [generateUniqueCode, hg] at herr hcode ⊢
        simp only [hex, if_false, Bool.false_eq_true] at herr hcode ⊢
        exact ⟨[], env.store c'.qIdx, by simp, by simpa using hex, by simp⟩

theorem countProbes_guc_le (env : Env) :
    ∀ (n : Nat) (c : Cursor),
      countProbes (generateUniqueCode env n c).trace ≤ n := by
  intro n
  induction n with
  | zero => intro c; simp [generateUniqueCode, countProbes]
  | succ n ih =>
    intro c
    rcases hg : generateRandomString env CodeLength c with ⟨os, c'⟩
    cases os with
    | none => simp [generateUniqueCode, hg, countProbes, isProbe]
    | some code =>
      by_cases hex : isCodeExist (env.store c'.qIdx) = true
      · simp only [generateUniqueCode, hg, hex, if_true]
        simp only [countProbes, List.filter_cons, isProbe, if_pos,
          List.length_cons]
        exact Nat.succ_le_succ (ih _)
      · simp [generateUniqueCode, hg, hex, countProbes, isProbe]

/-! ### Helper lemmas about `sendsVerifiedAux` -/

theorem sendsVerifiedAux_cons_nonpush (p : Option Event) (e : Event)
    (rest : List Event) (he : isPush e = false) :
    sendsVerifiedAux p (e :: rest) = sendsVerifiedAux (some e) rest := by
  cases e with
  | genErr => simp [sendsVerifiedAux]
  | probe c r => simp [sendsVerifiedAux]
  | push c => simp [isPush] at he

theorem sendsVerifiedAux_append_noPush (ys : List Event) :
    ∀ (xs : List Event) (p : Option Event),
      (∀ e ∈ xs, isPush e = false) →
      sendsVerifiedAux p (xs ++ ys) = sendsVerifiedAux (lastEvent p xs) ys := by
  intro xs
  induction xs with
  | nil => intro p _; simp [lastEvent]
  | cons e rest ih =>
    intro p hnp
    have he : isPush e = false := hnp e (List.mem_cons_self e rest)
    rw [List.cons_append, sendsVerifiedAux_cons_nonpush _ _ _ he]
    rw [ih (some e) (fun x hx => hnp x (List.mem_cons_of_mem e hx))]
    rfl

theorem sendsVerifiedAux_prev_irrel (ys : List Event) (p q : Option Event)
    (hhead : ∀ e, ys.head? = some e → isPush e = false) :
    sendsVerifiedAux p ys = sendsVerifiedAux q ys := by
  cases ys with
  | nil => rfl
  | cons e rest =>
    have he : isPush e = false := hhead e rfl
    rw [sendsVerifiedAux_cons_nonpush _ _ _ he,
      sendsVerifiedAux_cons_nonpush _ _ _ he]

/-! ### Helper lemmas about `fillChannelLoop` -/

theorem fill_head_noPush (env : Env) :
    ∀ (fuel it : Nat) (c : Cursor) (chan : List String) (e : Event),
      (fillChannelLoop env fuel it c chan).trace.head? = some e →
      isPush e = false := by
  intro fuel
  induction fuel with
  | zero => intro it c chan e he; simp [fillChannelLoop] at he
  | succ fuel ih =>
    intro it c chan e he
    by_cases hlen : chan.length < ChannelBufferSize
    · by_cases hstop : env.stop it = true
      · simp [fillChannelLoop, hlen, hstop] at he
      · rcases htr : (generateUniqueCode env 10 c).trace with _ | ⟨e₀, tr'⟩
        · exact absurd htr (guc_trace_ne_nil env 9 c)
        · have he₀ : isPush e₀ = false := by
            refine guc_noPush env 10 c e₀ ?_
            rw [htr]; exact List.mem_cons_self _ _
          by_cases herr : (generateUniqueCode env 10 c).isErr = true
          · simp [fillChannelLoop, hlen, hstop, herr, htr] at he
            exact he ▸ he₀
          · by_cases hcode : (generateUniqueCode env 10 c).code = ""
            · simp [fillChannelLoop, hlen, hstop, herr, hcode, htr] at he
              exact he ▸ he₀
            · simp [fillChannelLoop, hlen, hstop, herr, hcode, htr] at he
              exact he ▸ he₀
    · simp [fillChannelLoop, hlen] at he

theorem fill_stop_everywhere (env : Env) (hstop : ∀ k, env.stop k = true) :
    ∀ (fuel it : Nat) (c : Cursor) (chan : List String),
      fillChannelLoop env fuel it c chan
        = ⟨(fillChannelLoop env fuel it c chan).reason, it, c, chan, []⟩ := by
  intro fuel it c chan
  cases fuel with
  | zero => rfl
  | succ fuel =>
    by_cases hlen : chan.length < ChannelBufferSize
    · simp [fillChannelLoop, hlen, hstop it]
    · simp [fillChannelLoop, hlen]

/-! ### Helper lemmas about `generateRandomString` -/

theorem grs_isSome (env : Env) (hent : ∀ e, (env.entropy e).isSome) :
    ∀ (n : Nat) (c : Cursor), ((generateRandomString env n c).1).isSome := by
  intro n
  induction n with
  | zero => intro c; simp [generateRandomString]
  | succ n ih =>
    intro c
    rcases hv : env.entropy c.eIdx with _ | v
    · have := hent c.eIdx; rw [hv] at this; simp at this
    · rcases hrec : generateRandomString env n ⟨c.eIdx + 1, c.qIdx⟩ with ⟨os, c'⟩
      cases os with
      | none => have := ih ⟨c.eIdx + 1, c.qIdx⟩; rw [hrec] at this; simp at this
      | some s => simp [generateRandomString, hv, hrec]

theorem grs_none_iff (env : Env) :
    ∀ (n : Nat) (c : Cursor),
      (generateRandomString env n c).1 = none
        ↔ ∃ i < n, env.entropy (c.eIdx + i) = none := by
  intro n
  induction n with
  | zero => intro c; simp [generateRandomString]
  | succ n ih =>
    intro c
    rcases hv : env.entropy c.eIdx with _ | v
    · constructor
      · intro _; exact ⟨0, Nat.succ_pos n, by simpa using hv⟩
      · intro _; simp [generateRandomString, hv]
    · rcases hrec : generateRandomString env n ⟨c.eIdx + 1, c.qIdx⟩ with ⟨os, c'⟩
      have hih := ih ⟨c.eIdx + 1, c.qIdx⟩
      rw [hrec] at hih
      cases os with
      | none =>
        simp only [generateRandomString, hv, hrec]
        constructor
        · intro _
          rcases hih.mp rfl with ⟨i, hi, hnone⟩
          refine ⟨i + 1, Nat.succ_lt_succ hi, ?_⟩
          simpa [Nat.add_comm, Nat.add_left_comm, Nat.add_assoc] using hnone
        · intro _; trivial
      | some s =>
        simp only [generateRandomString, hv, hrec]
        constructor
        · intro h; simp at h
        · intro h
          rcases h with ⟨i, hi, hnone⟩
          cases i with
          | zero => rw [Nat.add_zero] at hnone; rw [hnone] at hv; cases hv
          | succ i =>
            exfalso
            have : (some s : Option String) = none := by
              refine hih.mpr ⟨i, Nat.lt_of_succ_lt_succ hi, ?_⟩
              simpa [Nat.add_comm, Nat.add_left_comm, Nat.add_assoc] using hnone
            cases this

theorem charAt_mem (v : Fin 62) : charAt v ∈ Charset.data := by
  unfold charAt
  apply List.get_mem

theorem grs_some_spec (env : Env) :
    ∀ (n : Nat) (c : Cursor) (s : String),
      (generateRandomString env n c).1 = some s →
      s.length = n ∧ ∀ ch ∈ s.data, ch ∈ Charset.data := by
  intro n
  induction n with
  | zero =>
    intro c s hs
    simp [generateRandomString] at hs
    subst hs
    exact ⟨rfl, by simp [String.data]⟩
  | succ n ih =>
    intro c s hs
    rcases hv : env.entropy c.eIdx with _ | v
    · simp [generateRandomString, hv] at hs
    · rcases hrec : generateRandomString env n ⟨c.eIdx + 1, c.qIdx⟩ with ⟨os, c'⟩
      cases os with
      | none => simp [generateRandomString, hv, hrec] at hs
      | some s' =>
        simp only [generateRandomString, hv, hrec] at hs
        rcases ih ⟨c.eIdx + 1, c.qIdx⟩ s' (by rw [hrec]) with ⟨hlen, hmem⟩
        cases hs
        constructor
        · show (charAt v :: s'.data).length = n + 1
          have hd : s'.data.length = n := hlen
          simp [hd]
        · intro ch hch
          rcases List.mem_cons.mp hch with h | h
          · subst h; exact charAt_mem v
          · exact hmem ch h

/-! ### Helper lemmas: behavior when every candidate collides -/

theorem guc_allTaken (env : Env) (hstore : ∀ q, isCodeExist (env.store q) = true)
    (hent : ∀ e, (env.entropy e).isSome) :
    ∀ (n : Nat) (c : Cursor),
      (generateUniqueCode env n c).code = ""
        ∧ (generateUniqueCode env n c).isErr = false
        ∧ countProbes (generateUniqueCode env n c).trace = n := by
  intro n
  induction n with
  | zero => intro c; exact ⟨rfl, rfl, rfl⟩
  | succ n ih =>
    intro c
    rcases hg : generateRandomString env CodeLength c with ⟨os, c'⟩
    cases os with
    | none =>
      have := grs_isSome env hent CodeLength c
      rw [hg] at this; simp at this
    | some code =>
      have hex := hstore c'.qIdx
      rcases ih ⟨c'.eIdx, c'.qIdx + 1⟩ with ⟨h1, h2, h3⟩
      refine ⟨?_, ?_, ?_⟩
      · simpa [generateUniqueCode, hg, hex] using h1
      · simpa [generateUniqueCode, hg, hex] using h2
      · simp only [generateUniqueCode, hg, hex, if_true]
        simp only [countProbes, List.filter_cons, isProbe, if_pos,
          List.length_cons]
        simpa [countProbes] using h3

theorem fill_allTaken (env : Env) (hstore : ∀ q, isCodeExist (env.store q) = true)
    (hent : ∀ e, (env.entropy e).isSome) :
    ∀ (fuel it : Nat) (c : Cursor) (chan : List String),
      (fillChannelLoop env fuel it c chan).chan = chan := by
  intro fuel
  induction fuel with
  | zero => intro it c chan; rfl
  | succ fuel ih =>
    intro it c chan
    by_cases hlen : chan.length < ChannelBufferSize
    · by_cases hstop : env.stop it = true
      · simp [fillChannelLoop, hlen, hstop]
      · rcases guc_allTaken env hstore hent 10 c with ⟨h1, h2, _⟩
        simp [fillChannelLoop, hlen, hstop, h1, h2, ih]
    · simp [fillChannelLoop, hlen]

/-! ### Helper lemma: the single-flight invariant -/

theorem reachableFill_inv :
    ∀ {s : FillFlagState}, ReachableFill s →
      s.inside = (if s.isFilling then 1 else 0) := by
  intro s h
  induction h with
  | init => rfl
  | @step t t' hr hstep ih =>
    cases hstep with
    | enterBusy h1 => exact ih
    | enter h1 => rw [h1] at ih; simp at ih; simp [ih]
    | exitPass h1 =>
      cases hfl : t.isFilling with
      | true => rw [hfl] at ih; simp at ih; simp [ih]
      | false => rw [hfl] at ih; simp at ih; omega

/-! ### Claim theorems -/

/-- C2: if the durable-store existence query fails (returns an error), the
uniqueness probe reports the candidate as existing: for every query outcome
with `err = true`, `isCodeExist` returns `true`, so an uncertain check
never lets a candidate through. -/
theorem isCodeExist_fail_closed (r : QueryOutcome) (h : r.err = true) :
    isCodeExist r = true := by
  simp [isCodeExist, h]

theorem isCodeExist_fail_closed_witness :
    (⟨true, 0⟩ : QueryOutcome).err = true
      ∧ isCodeExist ⟨true, 0⟩ = true :=
  ⟨rfl, isCodeExist_fail_closed ⟨true, 0⟩ rfl⟩

/-- C3: refill is single-flight with guaranteed flag cleanup: in every
state of the `isFilling` protocol reachable from a fresh generator, at most
one refill pass is inside the filling critical section; a refill trigger
arriving while the flag is held returns immediately leaving the state
unchanged; and a pass inside the critical section can always take the exit
transition, which clears the flag (the `defer` runs on every exit path). -/
theorem refill_single_flight :
    (∀ s : FillFlagState, ReachableFill s → s.inside ≤ 1)
    ∧ (∀ s : FillFlagState, s.isFilling = true → FillStep s s)
    ∧ (∀ s : FillFlagState, 0 < s.inside → FillStep s ⟨false, s.inside - 1⟩) := by
  refine ⟨?_, ?_, ?_⟩
  · intro s hs
    have hinv := reachableFill_inv hs
    cases hfl : s.isFilling with
    | true => rw [hfl] at hinv; simp at hinv; simp [hinv]
    | false => rw [hfl] at hinv; simp at hinv; simp [hinv]
  · intro s h
    exact FillStep.enterBusy s h
  · intro s h
    exact FillStep.exitPass s h

theorem refill_single_flight_witness :
    ReachableFill ⟨true, 1⟩
      ∧ (⟨true, 1⟩ : FillFlagState).inside ≤ 1
      ∧ FillStep ⟨true, 1⟩ ⟨true, 1⟩
      ∧ FillStep ⟨true, 1⟩ ⟨false, 0⟩ := by
  have hreach : ReachableFill ⟨true, 1⟩ :=
    ReachableFill.step ReachableFill.init (FillStep.enter ⟨false, 0⟩ rfl)
  exact ⟨hreach, refill_single_flight.1 ⟨true, 1⟩ hreach,
    refill_single_flight.2.1 ⟨true, 1⟩ rfl,
    refill_single_flight.2.2 ⟨true, 1⟩ (by decide)⟩

/-- C6 (code bug evaluation): the `ShortLink` model has no `gorm.DeletedAt`
column, so `DeleteLink`'s `db.Delete` is a hard delete.  On a store holding
the single issued code `"abc1234"`, deleting the link removes the row and
the existence check then reports the retired code as free — contradicting
the documented intent of the unscoped query (and the spec) that a deleted
code is still reported as existing.  A merely deactivated (toggled) code,
by contrast, is still reported as existing. -/
theorem retiredCode_reusable_bug :
    isCodeExistDB
        (deleteLink [⟨1, "abc1234", "https://example.com", 0, true⟩] "abc1234")
        "abc1234" = false
    ∧ isCodeExistDB
        (toggleLink [⟨1, "abc1234", "https://example.com", 0, true⟩] "abc1234")
        "abc1234" = true := by
  exact ⟨rfl, rfl⟩

/-- C7: a call of the random code generator with the configured length
returns `none` exactly when one of the `CodeLength` entropy draws it makes
fails, and on success it returns a string of exactly `CodeLength = 7`
characters, each of which is a character of the 62-character `Charset`;
there is no other outcome. -/
theorem generateRandomString_spec (env : Env) (c : Cursor) :
    ((generateRandomString env CodeLength c).1 = none
        ↔ ∃ i < CodeLength, env.entropy (c.eIdx + i) = none)
    ∧ (∀ s, (generateRandomString env CodeLength c).1 = some s →
        s.length = CodeLength ∧ ∀ ch ∈ s.data, ch ∈ Charset.data) :=
  ⟨grs_none_iff env CodeLength c,
   fun s hs => grs_some_spec env CodeLength c s hs⟩

theorem generateRandomString_spec_witness :
    (generateRandomString envAllFresh CodeLength ⟨0, 0⟩).1 = some "aaaaaaa"
    ∧ "aaaaaaa".length = CodeLength
    ∧ ∀ ch ∈ "aaaaaaa".data, ch ∈ Charset.data :=
  ⟨by decide,
   (generateRandomString_spec envAllFresh ⟨0, 0⟩).2 "aaaaaaa" (by decide)⟩

/-- C10: `Stop` is not idempotent: it closes `stopChan` unconditionally,
and in Go closing an already-closed channel panics (modelled as
`Except.error ()`); so after one successful `Stop`, a second `Stop` call
panics, and callers must invoke it at most once. -/
theorem stop_not_idempotent (g g' : Generator) (h : Stop g = Except.ok g') :
    Stop g' = Except.error () := by
  unfold Stop closeChan at h ⊢
  by_cases hc : g.stopChan.closed = true
  · rw [if_pos hc] at h
    exact absurd h (by simp [Except.map])
  · rw [if_neg hc] at h
    simp only [Except.map] at h
    injection h with h
    rw [← h]
    simp [Except.map]

theorem stop_not_idempotent_witness :
    Stop NewGenerator = Except.ok ⟨⟨[], false⟩, ⟨[], true⟩⟩
    ∧ Stop (⟨⟨[], false⟩, ⟨[], true⟩⟩ : Generator) = Except.error () :=
  ⟨rfl, stop_not_idempotent NewGenerator ⟨⟨[], false⟩, ⟨[], true⟩⟩ rfl⟩

theorem stop_ok_spec (g g' : Generator) (h : Stop g = Except.ok g') :
    g' = ⟨g.codeChan, ⟨g.stopChan.buf, true⟩⟩ ∧ g.stopChan.closed = false := by
  unfold Stop closeChan at h
  by_cases hc : g.stopChan.closed = true
  · rw [if_pos hc] at h
    exact absurd h (by simp [Except.map])
  · rw [if_neg hc] at h
    simp only [Except.map] at h
    injection h with h
    exact ⟨h.symm, by simpa using hc⟩

/-- C9: no operation of the pipeline ever closes `codeChan`: `Stop` closes
only `stopChan` and leaves `codeChan` untouched, `pushCode` and `GetCode`
preserve its closed flag, codes buffered at stop time remain retrievable by
later `GetCode` calls, and a `GetCode` on a stopped, empty pipeline blocks
(`none`) — it is never woken by the stop signal — returning only once a
code is pushed. -/
theorem codeChan_never_closed (g g' : Generator) (code : String) :
    (Stop g = Except.ok g' → g'.codeChan = g.codeChan)
    ∧ (pushCode g code).codeChan.closed = g.codeChan.closed
    ∧ (∀ s g₂, GetCode g = some (s, g₂) →
        g₂.codeChan.closed = g.codeChan.closed)
    ∧ (∀ c rest, g.codeChan.buf = c :: rest → Stop g = Except.ok g' →
        GetCode g' = some (c, { g' with codeChan := ⟨rest, g'.codeChan.closed⟩ }))
    ∧ (g.codeChan.buf = [] → g.codeChan.closed = false →
        GetCode g = none
        ∧ (Stop g = Except.ok g' → GetCode g' = none)
        ∧ GetCode (pushCode g code)
            = some (code, { g with codeChan := ⟨[], g.codeChan.closed⟩ })) := by
  refine ⟨?_, rfl, ?_, ?_, ?_⟩
  · intro h
    rw [(stop_ok_spec g g' h).1]
  · intro s g₂ h
    unfold GetCode at h
    rcases hbuf : g.codeChan.buf with _ | ⟨c, rest⟩
    · rw [hbuf] at h
      by_cases hcl : g.codeChan.closed = true
      · rw [if_pos (by simpa using hcl)] at h
        injection h with h
        rw [← (Prod.mk.injEq _ _ _ _).mp h |>.2]
      · rw [if_neg (by simpa using hcl)] at h
        cases h
    · rw [hbuf] at h
      injection h with h
      rw [← (Prod.mk.injEq _ _ _ _).mp h |>.2]
  · intro c rest hbuf h
    rw [(stop_ok_spec g g' h).1]
    unfold GetCode
    simp [hbuf]
  · intro hbuf hcl
    refine ⟨?_, ?_, ?_⟩
    · unfold GetCode
      rw [hbuf, if_neg (by simp [hcl])]
    · intro h
      rw [(stop_ok_spec g g' h).1]
      unfold GetCode
      rw [hbuf, if_neg (by simp [hcl])]
    · unfold GetCode pushCode
      simp [hbuf]

theorem codeChan_never_closed_witness :
    Stop (pushCode NewGenerator "abc1234")
        = Except.ok ⟨⟨["abc1234"], false⟩, ⟨[], true⟩⟩
    ∧ (⟨⟨["abc1234"], false⟩, ⟨[], true⟩⟩ : Generator).codeChan
        = (pushCode NewGenerator "abc1234").codeChan
    ∧ GetCode (⟨⟨["abc1234"], false⟩, ⟨[], true⟩⟩ : Generator)
        = some ("abc1234", ⟨⟨[], false⟩, ⟨[], true⟩⟩)
    ∧ GetCode NewGenerator = none := by
  have h := codeChan_never_closed (pushCode NewGenerator "abc1234")
    ⟨⟨["abc1234"], false⟩, ⟨[], true⟩⟩ "abc1234"
  refine ⟨rfl, h.1 rfl, h.2.2.2.1 "abc1234" [] rfl rfl, ?_⟩
  exact ((codeChan_never_closed NewGenerator NewGenerator "x").2.2.2.2
    rfl rfl).1

/-- C1: every code pushed into the supply buffer was verified unique at
push time: in the event trace of any execution of the refill loop (any
oracle, any fuel, any starting state), every send into `codeChan` is
immediately preceded by a probe of that very code whose store query
succeeded and reported that no record — in any state — carries it. -/
theorem fill_sends_verified (env : Env) :
    ∀ (fuel it : Nat) (c : Cursor) (chan : List String),
      sendsVerifiedAux none (fillChannelLoop env fuel it c chan).trace = true := by
  intro fuel
  induction fuel with
  | zero => intro it c chan; rfl
  | succ fuel ih =>
    intro it c chan
    by_cases hlen : chan.length < ChannelBufferSize
    · by_cases hstop : env.stop it = true
      · simp [fillChannelLoop, hlen, hstop, sendsVerifiedAux]
      · have hnp : ∀ e ∈ (generateUniqueCode env 10 c).trace, isPush e = false :=
          fun e he => guc_noPush env 10 c e he
        have hrest : ∀ (c' : Cursor) (chan' : List String) (e : Event),
            (fillChannelLoop env fuel (it + 1) c' chan').trace.head? = some e →
            isPush e = false :=
          fun c' chan' e he => fill_head_noPush env fuel (it + 1) c' chan' e he
        by_cases herr : (generateUniqueCode env 10 c).isErr = true
        · simp only [fillChannelLoop, hlen, if_true, hstop, Bool.false_eq_true,
            if_false, herr]
          rw [sendsVerifiedAux_append_noPush _ _ _ hnp]
          rw [sendsVerifiedAux_prev_irrel _ _ none (hrest _ _)]
          exact ih (it + 1) _ chan
        · by_cases hcode : (generateUniqueCode env 10 c).code = ""
          · simp only [fillChannelLoop, hlen, if_true, hstop, Bool.false_eq_true,
              if_false, herr, hcode]
            rw [sendsVerifiedAux_append_noPush _ _ _ hnp]
            rw [sendsVerifiedAux_prev_irrel _ _ none (hrest _ _)]
            exact ih (it + 1) _ chan
          · rcases guc_found_shape env 10 c (by simpa using herr) hcode
              with ⟨tr₀, r, htr, hr, _⟩
            have hnp₀ : ∀ e ∈ tr₀, isPush e = false := by
              intro e he
              refine guc_noPush env 10 c e ?_
              rw [htr]
              exact List.mem_append_left _ he
            simp only [fillChannelLoop, hlen, if_true, hstop, Bool.false_eq_true,
              if_false, herr, hcode]
            have hsplit :
                (generateUniqueCode env 10 c).trace
                    ++ [Event.push (generateUniqueCode env 10 c).code]
                    ++ (fillChannelLoop env fuel (it + 1)
                        (generateUniqueCode env 10 c).cursor
                        (chan ++ [(generateUniqueCode env 10 c).code])).trace
                  = tr₀ ++
                    (Event.probe (generateUniqueCode env 10 c).code r
                      :: Event.push (generateUniqueCode env 10 c).code
                      :: (fillChannelLoop env fuel (it + 1)
                          (generateUniqueCode env 10 c).cursor
                          (chan ++ [(generateUniqueCode env 10 c).code])).trace) := by
              rw [htr]
              simp
            rw [hsplit]
            rw [sendsVerifiedAux_append_noPush _ _ _ hnp₀]
            rw [sendsVerifiedAux_cons_nonpush _
              (Event.probe (generateUniqueCode env 10 c).code r) _ rfl]
            show (verifiedBefore
                (some (Event.probe (generateUniqueCode env 10 c).code r))
                (generateUniqueCode env 10 c).code
              && sendsVerifiedAux
                (some (Event.push (generateUniqueCode env 10 c).code))
                (fillChannelLoop env fuel (it + 1)
                  (generateUniqueCode env 10 c).cursor
                  (chan ++ [(generateUniqueCode env 10 c).code])).trace) = true
            rw [sendsVerifiedAux_prev_irrel _ _ none (hrest _ _)]
            simp [verifiedBefore, hr, ih (it + 1)]
    · simp [fillChannelLoop, hlen, sendsVerifiedAux]

/-- C4: producing one unique candidate is bounded by 10 generate-and-probe
cycles: `generateUniqueCode` performs at most 10 probes; when it returns a
non-empty code without error, that code is the first generated candidate
whose probe reported non-existence (every earlier probe reported
existence); when every probe reports existence (and entropy never fails)
it terminates after exactly 10 probes yielding the empty string with no
error; and the surrounding refill loop then simply retries, pushing
nothing. -/
theorem generateUniqueCode_bounded (env : Env) (c : Cursor) :
    countProbes (generateUniqueCode env 10 c).trace ≤ 10
    ∧ ((generateUniqueCode env 10 c).isErr = false →
        (generateUniqueCode env 10 c).code ≠ "" →
        ∃ tr₀ r, (generateUniqueCode env 10 c).trace
            = tr₀ ++ [Event.probe (generateUniqueCode env 10 c).code r]
          ∧ isCodeExist r = false
          ∧ ∀ c' r', Event.probe c' r' ∈ tr₀ → isCodeExist r' = true)
    ∧ ((∀ q, isCodeExist (env.store q) = true) →
        (∀ e, (env.entropy e).isSome) →
        (generateUniqueCode env 10 c).code = ""
          ∧ (generateUniqueCode env 10 c).isErr = false
          ∧ countProbes (generateUniqueCode env 10 c).trace = 10)
    ∧ (∀ fuel it chan,
        (∀ q, isCodeExist (env.store q) = true) →
        (∀ e, (env.entropy e).isSome) →
        (fillChannelLoop env fuel it c chan).chan = chan) :=
  ⟨countProbes_guc_le env 10 c,
   guc_found_shape env 10 c,
   fun h1 h2 => guc_allTaken env h1 h2 10 c,
   fun fuel it chan h1 h2 => fill_allTaken env h1 h2 fuel it c chan⟩

theorem generateUniqueCode_bounded_witness :
    ((generateUniqueCode envAllFresh 10 ⟨0, 0⟩).isErr = false
      ∧ (generateUniqueCode envAllFresh 10 ⟨0, 0⟩).code ≠ ""
      ∧ ∃ tr₀ r, (generateUniqueCode envAllFresh 10 ⟨0, 0⟩).trace
            = tr₀ ++ [Event.probe (generateUniqueCode envAllFresh 10 ⟨0, 0⟩).code r]
          ∧ isCodeExist r = false
          ∧ ∀ c' r', Event.probe c' r' ∈ tr₀ → isCodeExist r' = true)
    ∧ ((generateUniqueCode envAllTaken 10 ⟨0, 0⟩).code = ""
      ∧ (generateUniqueCode envAllTaken 10 ⟨0, 0⟩).isErr = false
      ∧ countProbes (generateUniqueCode envAllTaken 10 ⟨0, 0⟩).trace = 10)
    ∧ (fillChannelLoop envAllTaken 3 0 ⟨0, 0⟩ []).chan = [] := by
  refine ⟨⟨by decide, by decide, ?_⟩, ?_, ?_⟩
  · exact (generateUniqueCode_bounded envAllFresh ⟨0, 0⟩).2.1
      (by decide) (by decide)
  · exact (generateUniqueCode_bounded envAllTaken ⟨0, 0⟩).2.2.1
      (fun q => rfl) (fun e => rfl)
  · exact (generateUniqueCode_bounded envAllTaken ⟨0, 0⟩).2.2.2 3 0 []
      (fun q => rfl) (fun e => rfl)

/-- C5 counterexample: the claim that codes resident in the supply buffer
are mutually distinct (and that no two `GetCode` calls ever return the same
string) is false: with an entropy stream that repeats draws, a refill pass
probes the same candidate twice — the store, which only ever contains
consumed-and-inserted codes, truthfully reports it absent both times — and
pushes it twice; two `GetCode` calls then hand out the identical string
`"aaaaaaa"` to two consumers. -/
theorem buffer_duplicates_counterexample :
    (fillChannelLoop envAllFresh 2 0 ⟨0, 0⟩ []).chan = ["aaaaaaa", "aaaaaaa"]
    ∧ ¬ (fillChannelLoop envAllFresh 2 0 ⟨0, 0⟩ []).chan.Nodup
    ∧ GetCode (⟨⟨(fillChannelLoop envAllFresh 2 0 ⟨0, 0⟩ []).chan, false⟩,
          ⟨[], false⟩⟩ : Generator)
        = some ("aaaaaaa", ⟨⟨["aaaaaaa"], false⟩, ⟨[], false⟩⟩)
    ∧ GetCode (⟨⟨["aaaaaaa"], false⟩, ⟨[], false⟩⟩ : Generator)
        = some ("aaaaaaa", ⟨⟨[], false⟩, ⟨[], false⟩⟩) := by
  refine ⟨by decide, by decide, by decide, by decide⟩

/-- C5 amended: the buffer is pop-once — each `GetCode` removes the code it
returns, so two `GetCode` calls return codes at distinct buffer positions;
whenever the resident codes happen to be pairwise distinct, two successive
`GetCode` calls therefore return different strings.  (Mutual distinctness
of the residents themselves is not guaranteed by the code; see the
counterexample.) -/
theorem getCode_pop_once (g : Generator) (c1 c2 : String) (rest : List String)
    (hbuf : g.codeChan.buf = c1 :: c2 :: rest)
    (hnd : g.codeChan.buf.Nodup) :
    GetCode g = some (c1, { g with codeChan := ⟨c2 :: rest, g.codeChan.closed⟩ })
    ∧ GetCode { g with codeChan := ⟨c2 :: rest, g.codeChan.closed⟩ }
        = some (c2, { g with codeChan := ⟨rest, g.codeChan.closed⟩ })
    ∧ c1 ≠ c2 := by
  refine ⟨?_, ?_, ?_⟩
  · unfold GetCode
    rw [hbuf]
  · unfold GetCode
    rfl
  · rw [hbuf] at hnd
    exact fun h => (List.nodup_cons.mp hnd).1 (h ▸ List.mem_cons_self c2 rest)

theorem getCode_pop_once_witness :
    GetCode (⟨⟨["abc1234", "xyz9876"], false⟩, ⟨[], false⟩⟩ : Generator)
        = some ("abc1234", ⟨⟨["xyz9876"], false⟩, ⟨[], false⟩⟩)
    ∧ GetCode (⟨⟨["xyz9876"], false⟩, ⟨[], false⟩⟩ : Generator)
        = some ("xyz9876", ⟨⟨[], false⟩, ⟨[], false⟩⟩)
    ∧ "abc1234" ≠ "xyz9876" :=
  getCode_pop_once ⟨⟨["abc1234", "xyz9876"], false⟩, ⟨[], false⟩⟩
    "abc1234" "xyz9876" [] rfl (by decide)

theorem monitor_stop_everywhere (env : Env) (hstop : ∀ k, env.stop k = true)
    (fillFuel : Nat) :
    ∀ (es : List MEvent) (it : Nat) (c : Cursor) (chan : List String),
      (monitorAndRefill env fillFuel es it c chan).trace = []
      ∧ (monitorAndRefill env fillFuel es it c chan).chan = chan := by
  intro es
  induction es with
  | nil => intro it c chan; exact ⟨rfl, rfl⟩
  | cons e es ih =>
    intro it c chan
    cases e with
    | stopSig => exact ⟨rfl, rfl⟩
    | tick =>
      by_cases hlen : chan.length < MinFillThreshold
      · have hfill := fill_stop_everywhere env hstop fillFuel it c chan
        simp only [monitorAndRefill, hlen, if_true]
        rw [hfill]
        rcases ih it c chan with ⟨h1, h2⟩
        simp [h1, h2]
      · simp only [monitorAndRefill, hlen, if_false]
        exact ih it c chan

/-- C8: after the stop signal is raised, an in-progress refill loop
observes it at the top of its next iteration and exits (reaching capacity
or the stop branch, never running out of fuel) without beginning another
candidate attempt — its remaining trace is empty; the monitor, on waking to
the stop signal, returns at once processing nothing further; and once the
stop signal is up everywhere, an entire monitor run performs no refill
work at all: the state is terminal. -/
theorem stop_terminates_refill (env : Env) (fuel it : Nat) (c : Cursor)
    (chan : List String) (es : List MEvent) :
    (env.stop it = true →
      (fillChannelLoop env (fuel + 1) it c chan).trace = []
      ∧ (fillChannelLoop env (fuel + 1) it c chan).reason ≠ ExitReason.fuelOut)
    ∧ monitorAndRefill env fuel (MEvent.stopSig :: es) it c chan
        = ⟨c, chan, [], true⟩
    ∧ ((∀ k, env.stop k = true) →
        (monitorAndRefill env fuel es it c chan).trace = []
        ∧ (monitorAndRefill env fuel es it c chan).chan = chan) := by
  refine ⟨?_, rfl, ?_⟩
  · intro hstop
    by_cases hlen : chan.length < ChannelBufferSize
    · constructor
      · simp [fillChannelLoop, hlen, hstop]
      · simp [fillChannelLoop, hlen, hstop]
    · constructor
      · simp [fillChannelLoop, hlen]
      · simp [fillChannelLoop, hlen]
  · intro hstop
    exact monitor_stop_everywhere env hstop fuel es it c chan

theorem stop_terminates_refill_witness :
    ((fillChannelLoop envStopped 1 0 ⟨0, 0⟩ []).trace = []
      ∧ (fillChannelLoop envStopped 1 0 ⟨0, 0⟩ []).reason ≠ ExitReason.fuelOut)
    ∧ monitorAndRefill envStopped 0 [MEvent.stopSig] 0 ⟨0, 0⟩ []
        = ⟨⟨0, 0⟩, [], [], true⟩
    ∧ ((monitorAndRefill envStopped 0 [MEvent.tick, MEvent.tick] 0 ⟨0, 0⟩ []).trace = []
      ∧ (monitorAndRefill envStopped 0 [MEvent.tick, MEvent.tick] 0 ⟨0, 0⟩ []).chan = []) := by
  refine ⟨(stop_terminates_refill envStopped 0 0 ⟨0, 0⟩ [] []).1 rfl,
    (stop_terminates_refill envStopped 0 0 ⟨0, 0⟩ [] []).2.1,
    (stop_terminates_refill envStopped 0 0 ⟨0, 0⟩ []
      [MEvent.tick, MEvent.tick]).2.2 (fun k => rfl)⟩

end ShortUrl
